import Mathlib

/-!
Verification of the caddy-html-duckdb HTTP handler.

Go strings are modelled as lists of runes (List Char), matching the way the
source iterates them with range loops.  Byte-level operations (length,
slicing) are modelled through the UTF-8 size of each rune; on the inputs the
theorems below talk about, the rune-level model coincides with the byte-level
behaviour of the Go code.
-/

namespace CaddyHtmlDuckDB

/-- Go strings as rune sequences. -/
abbrev Str := List Char

/-- Single-quote character, written numerically. -/
def squote : Char := Char.ofNat 39

/-- Double-quote character, written numerically. -/
def dquote : Char := Char.ofNat 34

def dashC : Char := '-'

def slashC : Char := '/'

def starC : Char := '*'

def nlC : Char := Char.ofNat 10

def semiC : Char := ';'

def backslashC : Char := Char.ofNat 92

def commaC : Char := ','

def spaceC : Char := ' '

/-- The rune-class accepted by Go unicode.IsSpace: the Unicode White_Space
property (Latin-1 fast path plus the higher space code points). -/
def goIsSpace (c : Char) : Bool :=
  c.toNat = 0x09 || c.toNat = 0x0A || c.toNat = 0x0B || c.toNat = 0x0C ||
  c.toNat = 0x0D || c.toNat = 0x20 || c.toNat = 0x85 || c.toNat = 0xA0 ||
  c.toNat = 0x1680 || (0x2000 ≤ c.toNat && c.toNat ≤ 0x200A) ||
  c.toNat = 0x2028 || c.toNat = 0x2029 || c.toNat = 0x202F ||
  c.toNat = 0x205F || c.toNat = 0x3000

/-- Model of Go strings.TrimSpace: drop leading and trailing whitespace. -/
def trimSpace (s : Str) : Str :=
  ((s.dropWhile goIsSpace).reverse.dropWhile goIsSpace).reverse

/-- The character whitelist of sanitizeIdentifier (module source, bottom):
ASCII letters, digits and underscore. -/
def isIdentChar (c : Char) : Bool :=
  (0x61 ≤ c.toNat && c.toNat ≤ 0x7A) ||
  (0x41 ≤ c.toNat && c.toNat ≤ 0x5A) ||
  (0x30 ≤ c.toNat && c.toNat ≤ 0x39) ||
  c.toNat = 0x5F

/-- sanitizeIdentifier from the module source: keep only ASCII letters,
digits and underscores, silently dropping everything else. -/
def sanitizeIdentifier (s : Str) : Str :=
  s.filter isIdentChar

/-- Model of Go strings.ReplaceAll: leftmost, non-overlapping replacement of
every occurrence of pat by rep.  (The Go empty-pattern padding behaviour is
irrelevant here: the module only calls it with a one-character pattern.) -/
def replaceAll (s pat rep : Str) : Str :=
  match s with
  | [] => []
  | c :: rest =>
    if h : pat ≠ [] ∧ pat.isPrefixOf (c :: rest) then
      rep ++ replaceAll ((c :: rest).drop pat.length) pat rep
    else
      c :: replaceAll rest pat rep
termination_by s.length
decreasing_by
  · simp only [List.length_drop, List.length_cons]
    have hp : 0 < pat.length := List.length_pos.mpr h.1
    omega
  · simp

/-- escapeSQLString from the module source: double every single quote via
strings.ReplaceAll. -/
def escapeSQLString (s : Str) : Str :=
  replaceAll s [squote] [squote, squote]

/-- Unfolding lemma: on a cons cell, single-quote replacement either doubles
the head quote or keeps the head unchanged. -/
lemma replaceAll_squote_cons (c : Char) (rest : Str) :
    replaceAll (c :: rest) [squote] [squote, squote] =
      if c = squote then squote :: squote :: replaceAll rest [squote] [squote, squote]
      else c :: replaceAll rest [squote] [squote, squote] := by
  by_cases hc : c = squote
  · subst hc
    rw [replaceAll]
    simp [List.isPrefixOf]
  · rw [replaceAll]
    have hpre : ([squote].isPrefixOf (c :: rest)) = false := by
      simp [List.isPrefixOf]
      exact fun h => hc h.symm
    simp [hpre, hc]

/-- The single-quote replacement is the per-character map sending the quote
to two quotes and every other character to itself. -/
lemma escapeSQLString_eq (s : Str) :
    escapeSQLString s =
      (s.map (fun c => if c = squote then [squote, squote] else [c])).flatten := by
  induction s with
  | nil => simp [escapeSQLString, replaceAll]
  | cons c rest ih =>
    unfold escapeSQLString at *
    rw [replaceAll_squote_cons]
    by_cases hc : c = squote
    · simp [hc, ih]
    · simp [hc, ih]

/-- C2.  escapeSQLString doubles every single quote and performs no other
transformation: it is exactly the per-character map sending the quote to two
quotes and every other character to itself, preserving order. -/
theorem c2_escape_doubles_quotes_only (s : Str) :
    escapeSQLString s =
      (s.map (fun c => if c = squote then [squote, squote] else [c])).flatten :=
  escapeSQLString_eq s

/-- C3.  sanitizeIdentifier returns only characters in the class
A-Z a-z 0-9 underscore, its output is a subsequence of its input (every other
character is silently dropped), and the injection scenario from the spec
evaluates as stated. -/
theorem c3_sanitize_whitelist_subsequence :
    (∀ s : Str, (sanitizeIdentifier s).all isIdentChar = true ∧
      (sanitizeIdentifier s).Sublist s) ∧
    sanitizeIdentifier ("html; DROP TABLE users;--".toList) =
      ("htmlDROPTABLEusers".toList) := by
  refine ⟨fun s => ⟨?_, ?_⟩, by decide⟩
  · rw [List.all_eq_true]
    intro x hx
    exact List.of_mem_filter hx
  · exact List.filter_sublist s

/-- The handler configuration fields that the request path of ServeHTTP
reads.  Fields named *Macro in the Go struct hold macro names and are spelled
*MacroName here. -/
structure Config where
  table : Str
  htmlColumn : Str
  idColumn : Str
  idParam : Str
  whereClause : Str
  cacheControl : Str
  indexEnabled : Bool
  indexMacroName : Str
  searchEnabled : Bool
  searchMacroName : Str
  searchParam : Str
  basePath : Str
  recordMacroName : Str
  tableMacroName : Str
  tablePath : Str
  healthEnabled : Bool
  healthPath : Str
deriving DecidableEq, Repr

/-- The parts of an inbound request that ServeHTTP inspects: URL path, query
parameters (name-value pairs, first occurrence wins as in url.Values.Get),
and the If-None-Match header. -/
structure Request where
  path : Str
  query : List (Str × Str)
  ifNoneMatch : Str
deriving DecidableEq, Repr

/-- url.Values.Get: first value of the named parameter, empty if absent. -/
def getQueryParam (q : List (Str × Str)) (name : Str) : Str :=
  match q.find? (fun p => p.1 == name) with
  | some p => p.2
  | none => []

/-- strings.Split with a one-character separator.  Always non-empty; the
split of the empty string is one empty field, as in Go. -/
def goSplit (sep : Char) : Str → List Str
  | [] => [[]]
  | c :: rest =>
    if c = sep then [] :: goSplit sep rest
    else
      match goSplit sep rest with
      | [] => [[c]]
      | g :: gs => (c :: g) :: gs

/-- The last path segment: strings.Split on slash, last element. -/
def lastSegment (path : Str) : Str :=
  (goSplit slashC path).getLastD []

/-- The health endpoint path computed at the top of ServeHTTP:
basePath/healthPath, or /healthPath when no base path is configured. -/
def healthPathOf (h : Config) : Str :=
  if h.basePath ≠ [] then h.basePath ++ slashC :: h.healthPath
  else slashC :: h.healthPath

/-- The table endpoint path computed in ServeHTTP: basePath/tablePath, or
/tablePath when no base path is configured. -/
def tableEndpointOf (h : Config) : Str :=
  if h.basePath ≠ [] then h.basePath ++ slashC :: h.tablePath
  else slashC :: h.tablePath

/-- ID extraction in ServeHTTP: from the configured query parameter if set;
otherwise the last path segment, except that a path ending in a slash is an
index request and carries no ID. -/
def extractID (h : Config) (r : Request) : Str :=
  if h.idParam ≠ [] then getQueryParam r.query h.idParam
  else if ¬([slashC].isSuffixOf r.path = true) then lastSegment r.path
  else []

/-- The route decision of ServeHTTP.  The toNext constructor stands for
delegating to the next handler of the pipeline; ServeHTTP contains no call
to the next handler, so classify below never produces it. -/
inductive Route
  | health
  | tableReport
  | search (term : Str)
  | index (page : Str)
  | record (id : Str)
  | badRequest
  | toNext
deriving DecidableEq, Repr

/-- The ordered route classification performed by ServeHTTP: health path
first, then the table endpoint prefix, then a non-empty search parameter,
then the index page when no ID is present, then a 400 error when no ID is
present and no index fallback exists, and finally the record lookup. -/
def classify (h : Config) (r : Request) : Route :=
  if h.healthEnabled = true ∧ r.path = healthPathOf h then .health
  else if h.tableMacroName ≠ [] ∧ (tableEndpointOf h).isPrefixOf r.path = true then .tableReport
  else if getQueryParam r.query h.searchParam ≠ [] ∧ h.searchEnabled = true then
    .search (getQueryParam r.query h.searchParam)
  else if extractID h r = [] ∧ h.indexEnabled = true then
    .index (getQueryParam r.query ("page".toList))
  else if extractID h r = [] then .badRequest
  else .record (extractID h r)

/-- None of the five route categories applies: no health-path match, no
table-endpoint match, no enabled non-empty search parameter, no identifier
in the request, and no index fallback. -/
def noRouteApplies (h : Config) (r : Request) : Prop :=
  ¬(h.healthEnabled = true ∧ r.path = healthPathOf h) ∧
  ¬(h.tableMacroName ≠ [] ∧ (tableEndpointOf h).isPrefixOf r.path = true) ∧
  ¬(getQueryParam r.query h.searchParam ≠ [] ∧ h.searchEnabled = true) ∧
  extractID h r = [] ∧
  h.indexEnabled = false

instance (h : Config) (r : Request) : Decidable (noRouteApplies h r) := by
  unfold noRouteApplies
  infer_instance

/-- A configuration with every optional feature disabled and a request whose
path ends in a slash, so that no route category applies. -/
def cfgBare : Config :=
  { table := "pages".toList
    htmlColumn := "html".toList
    idColumn := "id".toList
    idParam := []
    whereClause := []
    cacheControl := []
    indexEnabled := false
    indexMacroName := "render_index".toList
    searchEnabled := false
    searchMacroName := "render_search".toList
    searchParam := "q".toList
    basePath := []
    recordMacroName := []
    tableMacroName := []
    tablePath := "_table".toList
    healthEnabled := false
    healthPath := "_health".toList }

def reqRootSlash : Request :=
  { path := [slashC], query := [], ifNoneMatch := [] }

/-- C1, counterexample.  At a concrete request for which none of the five
route categories applies, ServeHTTP does not pass control to the next
handler: it classifies the request as a 400 validation error. -/
theorem c1_counterexample_no_passthrough :
    noRouteApplies cfgBare reqRootSlash ∧
    classify cfgBare reqRootSlash = Route.badRequest ∧
    Route.badRequest ≠ Route.toNext := by
  decide

/-- C1, amended.  ServeHTTP never passes control to the next handler for any
request, and whenever none of the five route categories applies it produces
the 400 missing-ID validation error instead. -/
theorem c1_amended_no_match_is_bad_request (h : Config) (r : Request) :
    classify h r ≠ Route.toNext ∧
    (noRouteApplies h r → classify h r = Route.badRequest) := by
  constructor
  · unfold classify
    split <;> try simp
    split <;> try simp
    split <;> try simp
    split <;> try simp
    split <;> simp
  · intro hn
    obtain ⟨h1, h2, h3, h4, h5⟩ := hn
    unfold classify
    rw [if_neg h1, if_neg h2, if_neg h3]
    rw [if_neg (by simp [h4, h5]), if_pos h4]

/-- C1 witness: the amended theorem applied at the concrete counterexample
input. -/
theorem c1_amended_witness :
    noRouteApplies cfgBare reqRootSlash ∧
    classify cfgBare reqRootSlash = Route.badRequest :=
  ⟨by decide, (c1_amended_no_match_is_bad_request cfgBare reqRootSlash).2 (by decide)⟩

/-- C4.  Router precedence: once the health and table routes do not apply, a
non-empty search parameter with search enabled always selects the search
route (whether or not an identifier is present in the path); and a request
whose path equals the configured health path with health enabled always
selects the health route, regardless of any record data. -/
theorem c4_route_precedence (h : Config) (r : Request) :
    (¬(h.healthEnabled = true ∧ r.path = healthPathOf h) →
     ¬(h.tableMacroName ≠ [] ∧ (tableEndpointOf h).isPrefixOf r.path = true) →
     getQueryParam r.query h.searchParam ≠ [] →
     h.searchEnabled = true →
     classify h r = Route.search (getQueryParam r.query h.searchParam)) ∧
    (h.healthEnabled = true → r.path = healthPathOf h → classify h r = Route.health) := by
  constructor
  · intro h1 h2 h3 h4
    unfold classify
    rw [if_neg h1, if_neg h2, if_pos ⟨h3, h4⟩]
  · intro h1 h2
    unfold classify
    rw [if_pos ⟨h1, h2⟩]

/-- A configuration with search enabled and a search request with no
identifier in the path (the path ends in a slash). -/
def cfgSearch : Config :=
  { cfgBare with searchEnabled := true, indexEnabled := true }

def reqSearchNoId : Request :=
  { path := [slashC], query := [("q".toList, "foo".toList)], ifNoneMatch := [] }

/-- A configuration with health enabled and a request for exactly the health
path, whose last path segment could equally be a record identifier. -/
def cfgHealth : Config :=
  { cfgBare with healthEnabled := true }

def reqHealth : Request :=
  { path := "/_health".toList, query := [], ifNoneMatch := [] }

/-- C4 witness: search wins at a concrete request with a search term and no
path identifier, and health wins at a concrete request for the health path. -/
theorem c4_route_precedence_witness :
    classify cfgSearch reqSearchNoId =
      Route.search (getQueryParam reqSearchNoId.query cfgSearch.searchParam) ∧
    classify cfgHealth reqHealth = Route.health :=
  ⟨(c4_route_precedence cfgSearch reqSearchNoId).1
      (by decide) (by decide) (by decide) (by decide),
   (c4_route_precedence cfgHealth reqHealth).2 (by decide) (by decide)⟩

/-- An HTTP response as the handler shapes it: status code, headers in the
order they are set, and body bytes. -/
structure HttpResponse where
  status : Nat
  headers : List (Str × Str)
  body : Str
deriving DecidableEq, Repr

def hdrContentType : Str := "Content-Type".toList

def hdrContentLength : Str := "Content-Length".toList

def hdrETag : Str := "ETag".toList

def hdrCacheControl : Str := "Cache-Control".toList

def ctHTML : Str := "text/html; charset=utf-8".toList

def ctJSON : Str := "application/json".toList

def ccNoCache : Str := "no-cache".toList

def ccHealthValue : Str := "no-cache, no-store, must-revalidate".toList

/-- First header with the given name, as the response writer would report. -/
def getHeader (resp : HttpResponse) (name : Str) : Option Str :=
  match resp.headers.find? (fun p => p.1 == name) with
  | some p => some p.2
  | none => none

/-- Byte length of a Go string: the sum of the UTF-8 sizes of its runes. -/
def utf8Length (s : Str) : Nat :=
  (s.map Char.utf8Size).sum

/-- strconv.Itoa of the byte length, for the Content-Length header. -/
def contentLengthOf (s : Str) : Str :=
  (Nat.repr (utf8Length s)).toList

/-- The If-None-Match list scan of ServeHTTP: split the header on commas,
trim each piece, compare for exact equality with the computed ETag. -/
def anyPieceMatches (inm etag : Str) : Bool :=
  (goSplit commaC inm).any (fun m => trimSpace m == etag)

/-- The headers set on a 200 record response, in order: Content-Type,
Content-Length, ETag, and the configured Cache-Control when non-empty. -/
def recordOkHeaders (cc etag html : Str) : List (Str × Str) :=
  [(hdrContentType, ctHTML), (hdrContentLength, contentLengthOf html), (hdrETag, etag)] ++
  (if cc ≠ [] then [(hdrCacheControl, cc)] else [])

/-- The response-shaping tail of ServeHTTP for a successfully fetched record
(source lines after the row scan): evaluate If-None-Match against the
content fingerprint and either short-circuit with a bare 304 or emit the
content with its caching headers.  The fingerprint (the quoted hex MD5 of
the content, computed just above this code) is passed in as an opaque token:
its value only flows into comparisons and the ETag header. -/
def serveRecordContent (cc inm etag html : Str) : HttpResponse :=
  if inm ≠ [] then
    if inm = [starC] then ⟨304, [], []⟩
    else if anyPieceMatches inm etag then ⟨304, [], []⟩
    else ⟨200, recordOkHeaders cc etag html, html⟩
  else ⟨200, recordOkHeaders cc etag html, html⟩

/-- C5.  Conditional matching on If-None-Match: the wildcard star always
matches (304, empty body); an empty header never matches (content served
normally with status 200); any other header matches exactly when some
comma-separated, whitespace-trimmed piece equals the fingerprint; and on no
match the 200 response carries ETag, Content-Length and Content-Type
headers. -/
theorem c5_conditional_match (cc inm etag html : Str) :
    (inm = [starC] → serveRecordContent cc inm etag html = ⟨304, [], []⟩) ∧
    (inm = [] → (serveRecordContent cc inm etag html).status = 200 ∧
      (serveRecordContent cc inm etag html).body = html) ∧
    (inm ≠ [] → inm ≠ [starC] →
      ((serveRecordContent cc inm etag html).status = 304 ↔
        ∃ m ∈ goSplit commaC inm, trimSpace m = etag)) ∧
    ((serveRecordContent cc inm etag html).status = 200 →
      (hdrETag, etag) ∈ (serveRecordContent cc inm etag html).headers ∧
      (hdrContentLength, contentLengthOf html) ∈ (serveRecordContent cc inm etag html).headers ∧
      (hdrContentType, ctHTML) ∈ (serveRecordContent cc inm etag html).headers) := by
  refine ⟨?_, ?_, ?_, ?_⟩
  · intro hstar
    simp [serveRecordContent, hstar]
  · intro hempty
    simp [serveRecordContent, hempty]
  · intro hne hnstar
    unfold serveRecordContent
    rw [if_pos hne, if_neg hnstar]
    by_cases hm : anyPieceMatches inm etag = true
    · rw [if_pos hm]
      simp only [true_iff]
      · unfold anyPieceMatches at hm
        rw [List.any_eq_true] at hm
        obtain ⟨m, hmem, hbeq⟩ := hm
        exact ⟨m, hmem, by simpa using hbeq⟩
    · rw [if_neg hm]
      simp only [reduceCtorEq]
      constructor
      · intro hcon
        exact absurd hcon (by norm_num)
      · intro ⟨m, hmem, heq⟩
        exact absurd (List.any_eq_true.mpr ⟨m, hmem, by simpa using heq⟩) hm
  · intro hok
    unfold serveRecordContent at *
    by_cases hne : inm ≠ []
    · rw [if_pos hne] at *
      by_cases hstar : inm = [starC]
      · rw [if_pos hstar] at hok
        simp at hok
      · rw [if_neg hstar] at *
        by_cases hm : anyPieceMatches inm etag = true
        · rw [if_pos hm] at hok
          simp at hok
        · rw [if_neg hm]
          simp [recordOkHeaders]
    · rw [if_neg hne]
      simp [recordOkHeaders]

/-- C5 witness: the theorem applied at a concrete header list containing the
fingerprint with surrounding whitespace. -/
theorem c5_conditional_match_witness :
    ("  abc , xyz ".toList ≠ [] ∧ "  abc , xyz ".toList ≠ [starC]) ∧
    ((serveRecordContent [] ("  abc , xyz ".toList) ("xyz".toList) ("body".toList)).status = 304 ↔
      ∃ m ∈ goSplit commaC ("  abc , xyz ".toList), trimSpace m = "xyz".toList) :=
  ⟨⟨by decide, by decide⟩,
   (c5_conditional_match [] ("  abc , xyz ".toList) ("xyz".toList) ("body".toList)).2.2.1
     (by decide) (by decide)⟩

/-- C10.  When If-None-Match matches the fingerprint (wildcard or exact list
entry), ServeHTTP writes a bare 304 and returns before assigning any
response header: no ETag, no Content-Type, no Content-Length, and no
Cache-Control even when a cache-control policy is configured. -/
theorem c10_bare_304 (cc inm etag html : Str) :
    (inm = [starC] ∨ (inm ≠ [] ∧ anyPieceMatches inm etag = true)) →
    serveRecordContent cc inm etag html = ⟨304, [], []⟩ := by
  intro hm
  unfold serveRecordContent
  rcases hm with hstar | ⟨hne, hmatch⟩
  · subst hstar
    simp
  · rw [if_pos hne]
    by_cases hstar : inm = [starC]
    · rw [if_pos hstar]
    · rw [if_neg hstar, if_pos hmatch]

/-- C10 witness: with a configured cache-control policy and a matching exact
fingerprint, the 304 response carries no headers at all. -/
theorem c10_bare_304_witness :
    serveRecordContent ("public, max-age=3600".toList) ("xyz".toList)
      ("xyz".toList) ("body".toList) = ⟨304, [], []⟩ :=
  c10_bare_304 ("public, max-age=3600".toList) ("xyz".toList) ("xyz".toList)
    ("body".toList) (Or.inr ⟨by decide, by decide⟩)

/-- Outcome of the function-catalog probe issued by the macro check: a row
exists, no row exists (sql.ErrNoRows), or the query itself failed. -/
inductive CatalogOutcome
  | ok
  | noRows
  | fail (msg : Str)
deriving DecidableEq, Repr

/-- Abstract state of the backing store as the health checks observe it.
Wall-clock latencies (time.Since in the source) are nondeterministic and not
modelled. -/
structure DBState where
  pingError : Option Str
  tableProbeError : Option Str
  catalog : Str → CatalogOutcome

/-- One health check result: status, probed name, error message; empty
strings stand for the omitted JSON fields. -/
structure CheckResult where
  status : Str
  name : Str
  errMsg : Str
deriving DecidableEq, Repr

def okStatus : Str := "ok".toList

def errStatus : Str := "error".toList

def macroNotFound : Str := "macro not found".toList

def healthyStatus : Str := "healthy".toList

def unhealthyStatus : Str := "unhealthy".toList

/-- checkDatabase: ping probe. -/
def checkDatabase (db : DBState) : CheckResult :=
  match db.pingError with
  | some e => ⟨errStatus, [], e⟩
  | none => ⟨okStatus, [], []⟩

/-- checkTable: bounded read against the configured table. -/
def checkTable (h : Config) (db : DBState) : CheckResult :=
  match db.tableProbeError with
  | some e => ⟨errStatus, h.table, e⟩
  | none => ⟨okStatus, h.table, []⟩

/-- The macro existence check: query the function catalog for a table-macro
entry with the given name; no row yields the fixed message. -/
def checkMacroExists (db : DBState) (name : Str) : CheckResult :=
  match db.catalog name with
  | .noRows => ⟨errStatus, name, macroNotFound⟩
  | .fail m => ⟨errStatus, name, m⟩
  | .ok => ⟨okStatus, name, []⟩

/-- The checks included in a health report, in the order serveHealth adds
them: database, table, then one check per enabled or configured macro. -/
def healthChecks (h : Config) (db : DBState) : List (Str × CheckResult) :=
  [("database".toList, checkDatabase db), ("table".toList, checkTable h db)] ++
  (if h.indexEnabled then [("index_macro".toList, checkMacroExists db h.indexMacroName)] else []) ++
  (if h.searchEnabled then [("search_macro".toList, checkMacroExists db h.searchMacroName)] else []) ++
  (if h.recordMacroName ≠ [] then [("record_macro".toList, checkMacroExists db h.recordMacroName)] else []) ++
  (if h.tableMacroName ≠ [] then [("table_macro".toList, checkMacroExists db h.tableMacroName)] else [])

/-- The allHealthy flag of serveHealth: every included check reported ok. -/
def allChecksOk (checks : List (Str × CheckResult)) : Bool :=
  checks.all (fun c => c.2.status == okStatus)

/-- The aggregate health report: status string, check map, HTTP status. -/
structure HealthReport where
  status : Str
  checks : List (Str × CheckResult)
  httpStatus : Nat

/-- serveHealth: run the checks, aggregate, choose 200 or 503. -/
def serveHealth (h : Config) (db : DBState) : HealthReport :=
  if allChecksOk (healthChecks h db) then ⟨healthyStatus, healthChecks h db, 200⟩
  else ⟨unhealthyStatus, healthChecks h db, 503⟩

/-- The health endpoint only ever answers 200 or 503. -/
lemma serveHealth_httpStatus_cases (h : Config) (db : DBState) :
    (serveHealth h db).httpStatus = 200 ∨ (serveHealth h db).httpStatus = 503 := by
  unfold serveHealth
  split
  · exact Or.inl rfl
  · exact Or.inr rfl

/-- C6.  The health report is healthy exactly when every included check is
ok, the HTTP status is 200 exactly then and 503 otherwise, and when the
index feature is enabled but the index macro is absent from the function
catalog the report contains an index_macro check with the fixed
macro-not-found error and the report is unhealthy with status 503. -/
theorem c6_health_aggregation (h : Config) (db : DBState) :
    ((serveHealth h db).status = healthyStatus ↔
      ∀ c ∈ (serveHealth h db).checks, c.2.status = okStatus) ∧
    ((serveHealth h db).httpStatus = 200 ↔
      ∀ c ∈ (serveHealth h db).checks, c.2.status = okStatus) ∧
    ((serveHealth h db).httpStatus = 200 ∨ (serveHealth h db).httpStatus = 503) ∧
    (h.indexEnabled = true → db.catalog h.indexMacroName = CatalogOutcome.noRows →
      ("index_macro".toList, (⟨errStatus, h.indexMacroName, macroNotFound⟩ : CheckResult)) ∈
        (serveHealth h db).checks ∧
      (serveHealth h db).status = unhealthyStatus ∧
      (serveHealth h db).httpStatus = 503) := by
  have hchecks : (serveHealth h db).checks = healthChecks h db := by
    unfold serveHealth
    split <;> rfl
  have hall : allChecksOk (healthChecks h db) = true ↔
      ∀ c ∈ healthChecks h db, c.2.status = okStatus := by
    unfold allChecksOk
    rw [List.all_eq_true]
    constructor
    · intro hx c hc
      simpa using hx c hc
    · intro hx c hc
      simpa using hx c hc
  refine ⟨?_, ?_, ?_, ?_⟩
  · rw [hchecks]
    unfold serveHealth
    by_cases hb : allChecksOk (healthChecks h db) = true
    · rw [if_pos hb]
      exact iff_of_true rfl (hall.mp hb)
    · rw [if_neg hb]
      exact iff_of_false (by show ¬(unhealthyStatus = healthyStatus); decide)
        (fun hx => hb (hall.mpr hx))
  · rw [hchecks]
    unfold serveHealth
    by_cases hb : allChecksOk (healthChecks h db) = true
    · rw [if_pos hb]
      exact iff_of_true rfl (hall.mp hb)
    · rw [if_neg hb]
      exact iff_of_false (by show ¬((503 : Nat) = 200); decide)
        (fun hx => hb (hall.mpr hx))
  · exact serveHealth_httpStatus_cases h db
  · intro hidx hcat
    have hmem : ("index_macro".toList, (⟨errStatus, h.indexMacroName, macroNotFound⟩ : CheckResult)) ∈
        healthChecks h db := by
      unfold healthChecks
      have : checkMacroExists db h.indexMacroName = ⟨errStatus, h.indexMacroName, macroNotFound⟩ := by
        unfold checkMacroExists
        rw [hcat]
      simp [hidx, this]
    have hnotall : ¬(∀ c ∈ healthChecks h db, c.2.status = okStatus) := by
      intro hx
      have := hx _ hmem
      simp at this
      exact absurd this (by decide)
    have hb : allChecksOk (healthChecks h db) ≠ true := fun hx => hnotall (hall.mp hx)
    refine ⟨by rw [hchecks]; exact hmem, ?_, ?_⟩
    · unfold serveHealth
      rw [if_neg hb]
    · unfold serveHealth
      rw [if_neg hb]

/-- A store state in which everything works except that the catalog holds no
index macro entry. -/
def dbNoIndexMacro : DBState :=
  { pingError := none
    tableProbeError := none
    catalog := fun name => if name = "render_index".toList then .noRows else .ok }

/-- A configuration with the index feature enabled. -/
def cfgIndexOn : Config :=
  { cfgBare with indexEnabled := true }

/-- C6 witness: with index enabled and the index macro missing from the
catalog, the concrete report contains the error check and is unhealthy with
HTTP 503. -/
theorem c6_health_aggregation_witness :
    ("index_macro".toList,
      (⟨errStatus, cfgIndexOn.indexMacroName, macroNotFound⟩ : CheckResult)) ∈
      (serveHealth cfgIndexOn dbNoIndexMacro).checks ∧
    (serveHealth cfgIndexOn dbNoIndexMacro).status = unhealthyStatus ∧
    (serveHealth cfgIndexOn dbNoIndexMacro).httpStatus = 503 :=
  (c6_health_aggregation cfgIndexOn dbNoIndexMacro).2.2.2 rfl (by decide)

/-- The successful serveIndex response: Content-Type, Content-Length, and
the configured Cache-Control when one is set.  The request only feeds the
page number and derived base path of the macro call, not the response
headers. -/
def serveIndexResponse (h : Config) (r : Request) (html : Str) : HttpResponse :=
  ⟨200,
    [(hdrContentType, ctHTML), (hdrContentLength, contentLengthOf html)] ++
      (if h.cacheControl ≠ [] then [(hdrCacheControl, h.cacheControl)] else []),
    html⟩

/-- The successful serveSearch response: an HTMX partial with a fixed
no-cache Cache-Control. -/
def serveSearchResponse (h : Config) (r : Request) (html : Str) : HttpResponse :=
  ⟨200,
    [(hdrContentType, ctHTML), (hdrContentLength, contentLengthOf html),
      (hdrCacheControl, ccNoCache)],
    html⟩

/-- The successful serveTable response: formatted table with a fixed
no-cache Cache-Control. -/
def serveTableResponse (h : Config) (r : Request) (html : Str) : HttpResponse :=
  ⟨200,
    [(hdrContentType, ctHTML), (hdrContentLength, contentLengthOf html),
      (hdrCacheControl, ccNoCache)],
    html⟩

/-- The serveHealth HTTP response: JSON content type, the fixed
no-cache/no-store Cache-Control, and 200 or 503 as aggregated.  The JSON
marshalling of the body and its Content-Length header are not modelled. -/
def serveHealthResponse (h : Config) (r : Request) (db : DBState) : HttpResponse :=
  ⟨(serveHealth h db).httpStatus,
    [(hdrContentType, ctJSON), (hdrCacheControl, ccHealthValue)],
    []⟩

/-- A response is marked non-cacheable when its Cache-Control header is one
of the two no-cache markings this module emits. -/
def markedNonCacheable (resp : HttpResponse) : Prop :=
  getHeader resp hdrCacheControl = some ccNoCache ∨
  getHeader resp hdrCacheControl = some ccHealthValue

instance (resp : HttpResponse) : Decidable (markedNonCacheable resp) := by
  unfold markedNonCacheable
  infer_instance

/-- A configuration with the index feature enabled and a cacheable
Cache-Control policy configured. -/
def cfgIndexCached : Config :=
  { cfgBare with indexEnabled := true, cacheControl := "public, max-age=3600".toList }

/-- C7, counterexample.  An index response under a configured cache-control
policy is not marked non-cacheable: it carries the configured cacheable
policy verbatim. -/
theorem c7_counterexample_index_cacheable :
    ¬ markedNonCacheable
        (serveIndexResponse cfgIndexCached reqRootSlash ("x".toList)) ∧
    getHeader (serveIndexResponse cfgIndexCached reqRootSlash ("x".toList))
        hdrCacheControl = some ("public, max-age=3600".toList) := by
  decide

/-- C7, amended.  Search, table and health responses are freshly computed,
never 304, carry no ETag, ignore If-None-Match, and are marked
non-cacheable; index responses are likewise freshly computed with no
conditional handling, but carry the operator-configured Cache-Control header
verbatim when one is set (and no Cache-Control header otherwise) rather
than a non-cacheable marking. -/
theorem c7_amended_fresh_responses (h : Config) (r : Request) (db : DBState)
    (html : Str) (inm' : Str) :
    ((serveSearchResponse h r html).status = 200 ∧
      getHeader (serveSearchResponse h r html) hdrCacheControl = some ccNoCache ∧
      (serveSearchResponse h r html).headers.all (fun p => !(p.1 == hdrETag)) = true ∧
      serveSearchResponse h { r with ifNoneMatch := inm' } html =
        serveSearchResponse h r html) ∧
    ((serveTableResponse h r html).status = 200 ∧
      getHeader (serveTableResponse h r html) hdrCacheControl = some ccNoCache ∧
      (serveTableResponse h r html).headers.all (fun p => !(p.1 == hdrETag)) = true ∧
      serveTableResponse h { r with ifNoneMatch := inm' } html =
        serveTableResponse h r html) ∧
    (((serveHealthResponse h r db).status = 200 ∨
        (serveHealthResponse h r db).status = 503) ∧
      getHeader (serveHealthResponse h r db) hdrCacheControl = some ccHealthValue ∧
      (serveHealthResponse h r db).headers.all (fun p => !(p.1 == hdrETag)) = true ∧
      serveHealthResponse h { r with ifNoneMatch := inm' } db =
        serveHealthResponse h r db) ∧
    ((serveIndexResponse h r html).status = 200 ∧
      (serveIndexResponse h r html).headers.all (fun p => !(p.1 == hdrETag)) = true ∧
      getHeader (serveIndexResponse h r html) hdrCacheControl =
        (if h.cacheControl ≠ [] then some h.cacheControl else none) ∧
      serveIndexResponse h { r with ifNoneMatch := inm' } html =
        serveIndexResponse h r html) := by
  have e1 : (hdrContentType == hdrCacheControl) = false := by decide
  have e2 : (hdrContentLength == hdrCacheControl) = false := by decide
  have e3 : (hdrCacheControl == hdrCacheControl) = true := by decide
  refine ⟨⟨rfl, ?_, ?_, rfl⟩, ⟨rfl, ?_, ?_, rfl⟩, ⟨?_, ?_, ?_, rfl⟩, ⟨rfl, ?_, ?_, rfl⟩⟩
  · simp +decide [serveSearchResponse, getHeader, List.find?, e1, e2, e3]
  · simp +decide [serveSearchResponse]
  · simp +decide [serveTableResponse, getHeader, List.find?, e1, e2, e3]
  · simp +decide [serveTableResponse]
  · exact serveHealth_httpStatus_cases h db
  · simp +decide [serveHealthResponse, getHeader, List.find?]
  · simp +decide [serveHealthResponse]
  · by_cases hc : h.cacheControl ≠ []
    · simp +decide [serveIndexResponse, hc]
    · simp +decide [serveIndexResponse, hc]
  · by_cases hc : h.cacheControl ≠ []
    · simp +decide [serveIndexResponse, getHeader, List.find?, hc, e1, e2, e3]
    · simp +decide [serveIndexResponse, getHeader, List.find?, hc, e1, e2]

/-- Take a prefix of at most n bytes, whole runes only.  Models the Go byte
slice term[:n]; the two agree whenever the cut does not split a rune, in
particular on single-byte characters. -/
def byteTake : Nat → Str → Str
  | _, [] => []
  | n, c :: cs => if c.utf8Size ≤ n then c :: byteTake (n - c.utf8Size) cs else []

/-- The search-term sanitisation at the top of serveSearch: trim surrounding
whitespace, then cut to at most 200 bytes. -/
def processSearchTerm (t : Str) : Str :=
  if utf8Length (trimSpace t) > 200 then byteTake 200 (trimSpace t)
  else trimSpace t

/-- strings.TrimSuffix: drop the suffix if present, else return unchanged. -/
def goTrimSuffix (s suffix : Str) : Str :=
  if suffix.isSuffixOf s = true then s.take (s.length - suffix.length) else s

/-- The base path used by serveSearch: the configured one, else the request
path without a trailing slash and without a trailing /search segment. -/
def searchBasePath (h : Config) (r : Request) : Str :=
  if h.basePath ≠ [] then h.basePath
  else goTrimSuffix (goTrimSuffix r.path [slashC]) ("/search".toList)

/-- The SQL text serveSearch interpolates: the sanitised macro name applied
to the escaped processed term and escaped base path. -/
def buildSearchQuery (h : Config) (r : Request) (rawTerm : Str) : Str :=
  "SELECT html FROM ".toList ++ sanitizeIdentifier h.searchMacroName ++
  "(term := ".toList ++ [squote] ++ escapeSQLString (processSearchTerm rawTerm) ++
  [squote] ++ ", base_path := ".toList ++ [squote] ++
  escapeSQLString (searchBasePath h r) ++ [squote] ++ ")".toList

lemma prefix_byteTake (n : Nat) (l : Str) : List.IsPrefix (byteTake n l) l := by
  induction l generalizing n with
  | nil => simp [byteTake]
  | cons c cs ih =>
    unfold byteTake
    by_cases hc : c.utf8Size ≤ n
    · rw [if_pos hc]
      obtain ⟨t, ht⟩ := ih (n - c.utf8Size)
      exact ⟨t, by rw [List.cons_append, ht]⟩
    · rw [if_neg hc]
      exact ⟨c :: cs, rfl⟩

lemma utf8Length_byteTake (n : Nat) (l : Str) : utf8Length (byteTake n l) ≤ n := by
  induction l generalizing n with
  | nil => simp [byteTake, utf8Length]
  | cons c cs ih =>
    unfold byteTake
    by_cases hc : c.utf8Size ≤ n
    · rw [if_pos hc]
      have := ih (n - c.utf8Size)
      simp only [utf8Length, List.map_cons, List.sum_cons] at *
      omega
    · rw [if_neg hc]
      simp [utf8Length]

lemma length_le_utf8Length (l : Str) : l.length ≤ utf8Length l := by
  induction l with
  | nil => simp [utf8Length]
  | cons c cs ih =>
    have hc : 1 ≤ c.utf8Size := Char.utf8Size_pos c
    simp only [utf8Length, List.map_cons, List.sum_cons, List.length_cons] at *
    omega

/-- The demonstration configuration of C8: search enabled with the default
macro name and a configured base path. -/
def cfgSearchBase : Config :=
  { cfgSearch with basePath := "/p".toList }

set_option maxRecDepth 8192 in
/-- C8.  The search term is trimmed of surrounding whitespace and then
truncated to at most 200 characters (a prefix of the trimmed term of byte
length at most 200) before escaping; a term of 250 letters a is embedded in
the macro-call SQL as exactly 200 letters a. -/
theorem c8_search_term_truncation :
    (∀ t : Str, (processSearchTerm t).length ≤ 200 ∧
      List.IsPrefix (processSearchTerm t) (trimSpace t)) ∧
    processSearchTerm (List.replicate 250 'a') = List.replicate 200 'a' ∧
    buildSearchQuery cfgSearchBase reqRootSlash (List.replicate 250 'a') =
      "SELECT html FROM render_search(term := ".toList ++ [squote] ++
        List.replicate 200 'a' ++ [squote] ++ ", base_path := ".toList ++
        [squote] ++ "/p".toList ++ [squote] ++ ")".toList := by
  refine ⟨fun t => ⟨?_, ?_⟩, ?_, ?_⟩
  · unfold processSearchTerm
    by_cases hl : utf8Length (trimSpace t) > 200
    · rw [if_pos hl]
      calc (byteTake 200 (trimSpace t)).length
          ≤ utf8Length (byteTake 200 (trimSpace t)) := length_le_utf8Length _
        _ ≤ 200 := utf8Length_byteTake 200 (trimSpace t)
    · rw [if_neg hl]
      calc (trimSpace t).length ≤ utf8Length (trimSpace t) := length_le_utf8Length _
        _ ≤ 200 := by omega
  · unfold processSearchTerm
    by_cases hl : utf8Length (trimSpace t) > 200
    · rw [if_pos hl]
      exact prefix_byteTake 200 (trimSpace t)
    · rw [if_neg hl]
  · decide
  · simp only [buildSearchQuery, escapeSQLString_eq]
    decide

/-- The loop state of parseSQLStatements: emitted statements, the current
accumulator, the four lexer flags, and the previous rune. -/
structure ParseState where
  stmts : List Str
  current : Str
  inSingleQuote : Bool
  inDoubleQuote : Bool
  inLineComment : Bool
  inBlockComment : Bool
  prev : Char
deriving Repr

/-- The zero-valued state the Go loop starts from. -/
def initState : ParseState :=
  ⟨[], [], false, false, false, false, Char.ofNat 0⟩

/-- Append the trimmed accumulator as a statement if it is non-empty, as
done at a terminator and at end of input. -/
def emitIfNonEmpty (stmts : List Str) (cur : Str) : List Str :=
  if trimSpace cur ≠ [] then stmts ++ [trimSpace cur] else stmts

/-- One iteration of the character loop of parseSQLStatements, branch for
branch: line-comment start (retracting the already-emitted first dash, a
single-byte rune, so the byte retraction is the rune dropLast), line-comment
end at newline (emitting a space), skipping inside a line comment,
block-comment start (retracting the slash), block-comment end (emitting a
space), skipping inside a block comment, quote toggling with the
backslash-escape heuristic, statement emission at an unquoted semicolon,
and the default append. -/
def step (st : ParseState) (r : Char) : ParseState :=
  if st.inSingleQuote = false ∧ st.inDoubleQuote = false ∧ st.inBlockComment = false ∧
      r = dashC ∧ st.prev = dashC then
    { st with inLineComment := true, current := st.current.dropLast, prev := r }
  else if st.inLineComment = true ∧ r = nlC then
    { st with inLineComment := false, current := st.current ++ [spaceC], prev := r }
  else if st.inLineComment = true then
    { st with prev := r }
  else if st.inSingleQuote = false ∧ st.inDoubleQuote = false ∧ st.inBlockComment = false ∧
      r = starC ∧ st.prev = slashC then
    { st with inBlockComment := true, current := st.current.dropLast, prev := r }
  else if st.inBlockComment = true ∧ r = slashC ∧ st.prev = starC then
    { st with inBlockComment := false, current := st.current ++ [spaceC], prev := r }
  else if st.inBlockComment = true then
    { st with prev := r }
  else
    let st1 := if r = squote ∧ st.inDoubleQuote = false ∧ st.prev ≠ backslashC then
      { st with inSingleQuote := !st.inSingleQuote } else st
    let st2 := if r = dquote ∧ st1.inSingleQuote = false ∧ st1.prev ≠ backslashC then
      { st1 with inDoubleQuote := !st1.inDoubleQuote } else st1
    if r = semiC ∧ st2.inSingleQuote = false ∧ st2.inDoubleQuote = false then
      { st2 with stmts := emitIfNonEmpty st2.stmts st2.current, current := [], prev := r }
    else
      { st2 with current := st2.current ++ [r], prev := r }

/-- parseSQLStatements: fold the character loop over the script and emit a
final trimmed statement if the accumulator is non-empty. -/
def parseSQLStatements (content : Str) : List Str :=
  emitIfNonEmpty (content.foldl step initState).stmts (content.foldl step initState).current

/-- ASCII whitespace, the whitespace alphabet of the comment-script
grammar below. -/
def wsChars : List Char := [spaceC, Char.ofNat 9, nlC, Char.ofNat 13]

/-- Scripts consisting only of whitespace, line comments and well-formed
block comments.  A block-comment body may not start with a slash (the
opening star would pair with it) nor contain a star-slash pair, which the
chain condition on the star-prefixed body expresses. -/
inductive CommentScript : Str → Prop
  | nil : CommentScript []
  | ws {c : Char} {s : Str} : c ∈ wsChars → CommentScript s → CommentScript (c :: s)
  | line {b s : Str} : nlC ∉ b → CommentScript s →
      CommentScript (dashC :: dashC :: (b ++ nlC :: s))
  | lineEnd {b : Str} : nlC ∉ b → CommentScript (dashC :: dashC :: b)
  | block {b s : Str} :
      List.Chain' (fun a c => ¬(a = starC ∧ c = slashC)) (starC :: b) →
      CommentScript s →
      CommentScript (slashC :: starC :: (b ++ starC :: slashC :: s))

/-- Every character of the list is grammar whitespace. -/
def AllWs (l : Str) : Prop := ∀ c ∈ l, c ∈ wsChars

/-- The machine invariant between segments: no open quote or comment, a
whitespace-only accumulator, no emitted statement, and a previous rune that
cannot combine with a following segment opener. -/
def GoodSt (st : ParseState) : Prop :=
  st.inSingleQuote = false ∧ st.inDoubleQuote = false ∧ st.inLineComment = false ∧
  st.inBlockComment = false ∧ AllWs st.current ∧ st.stmts = [] ∧ st.prev ≠ dashC

/-- The machine invariant while inside a line comment. -/
def LineSt (st : ParseState) : Prop :=
  st.inSingleQuote = false ∧ st.inDoubleQuote = false ∧ st.inLineComment = true ∧
  st.inBlockComment = false ∧ AllWs st.current ∧ st.stmts = []

/-- The machine invariant while inside a block comment. -/
def BlockSt (st : ParseState) : Prop :=
  st.inSingleQuote = false ∧ st.inDoubleQuote = false ∧ st.inLineComment = false ∧
  st.inBlockComment = true ∧ AllWs st.current ∧ st.stmts = []

lemma mem_of_mem_dropLast {α : Type} {c : α} {l : List α} (h : c ∈ l.dropLast) : c ∈ l := by
  induction l with
  | nil => simp at h
  | cons a as ih =>
    cases as with
    | nil => simp at h
    | cons b bs =>
      rw [List.dropLast_cons₂, List.mem_cons] at h
      rcases h with rfl | h
      · exact List.mem_cons_self _ _
      · exact List.mem_cons_of_mem _ (ih h)

lemma allWs_dropLast {l : Str} (h : AllWs l) : AllWs l.dropLast :=
  fun c hc => h c (mem_of_mem_dropLast hc)

lemma allWs_append_ws {l : Str} {c : Char} (h : AllWs l) (hc : c ∈ wsChars) :
    AllWs (l ++ [c]) := by
  intro x hx
  rcases List.mem_append.mp hx with h1 | h2
  · exact h x h1
  · simp at h2
    subst h2
    exact hc

lemma wsChar_goIsSpace {c : Char} (h : c ∈ wsChars) : goIsSpace c = true := by
  simp [wsChars, spaceC, nlC] at h
  rcases h with rfl | rfl | rfl | rfl <;> decide

lemma trimSpace_allWs {l : Str} (h : AllWs l) : trimSpace l = [] := by
  have h1 : l.dropWhile goIsSpace = [] := by
    rw [List.dropWhile_eq_nil_iff]
    intro x hx
    exact wsChar_goIsSpace (h x hx)
  simp [trimSpace, h1]

lemma step_plain (st : ParseState) (c : Char)
    (hS : st.inSingleQuote = false) (hD : st.inDoubleQuote = false)
    (hL : st.inLineComment = false) (hB : st.inBlockComment = false)
    (h1 : ¬(c = dashC ∧ st.prev = dashC)) (h2 : ¬(c = starC ∧ st.prev = slashC))
    (hq1 : c ≠ squote) (hq2 : c ≠ dquote) (hs : c ≠ semiC) :
    step st c = { st with current := st.current ++ [c], prev := c } := by
  unfold step
  rw [if_neg (fun h => h1 ⟨h.2.2.2.1, h.2.2.2.2⟩)]
  rw [if_neg (fun h => by rw [hL] at h; exact Bool.false_ne_true h.1)]
  rw [if_neg (fun h => by rw [hL] at h; exact Bool.false_ne_true h)]
  rw [if_neg (fun h => h2 ⟨h.2.2.2.1, h.2.2.2.2⟩)]
  rw [if_neg (fun h => by rw [hB] at h; exact Bool.false_ne_true h.1)]
  rw [if_neg (fun h => by rw [hB] at h; exact Bool.false_ne_true h)]
  simp only [if_neg (fun h => hq1 h.1 : ¬(c = squote ∧ st.inDoubleQuote = false ∧ st.prev ≠ backslashC))]
  simp only [if_neg (fun h => hq2 h.1 : ¬(c = dquote ∧ st.inSingleQuote = false ∧ st.prev ≠ backslashC))]
  simp only [if_neg (fun h => hs h.1 : ¬(c = semiC ∧ st.inSingleQuote = false ∧ st.inDoubleQuote = false))]

lemma step_dashdash (st : ParseState)
    (hS : st.inSingleQuote = false) (hD : st.inDoubleQuote = false)
    (hB : st.inBlockComment = false) (hp : st.prev = dashC) :
    step st dashC =
      { st with inLineComment := true, current := st.current.dropLast, prev := dashC } := by
  unfold step
  rw [if_pos ⟨hS, hD, hB, rfl, hp⟩]

lemma step_inLine_skip (st : ParseState) (c : Char)
    (hL : st.inLineComment = true)
    (h1 : ¬(c = dashC ∧ st.prev = dashC)) (hnl : c ≠ nlC) :
    step st c = { st with prev := c } := by
  unfold step
  rw [if_neg (fun h => h1 ⟨h.2.2.2.1, h.2.2.2.2⟩)]
  rw [if_neg (fun h => hnl h.2)]
  rw [if_pos hL]

lemma step_inLine_nl (st : ParseState) (hL : st.inLineComment = true) :
    step st nlC =
      { st with inLineComment := false, current := st.current ++ [spaceC], prev := nlC } := by
  unfold step
  rw [if_neg (fun h => by exact absurd h.2.2.2.1 (by decide))]
  rw [if_pos ⟨hL, rfl⟩]

lemma step_startBlock (st : ParseState)
    (hS : st.inSingleQuote = false) (hD : st.inDoubleQuote = false)
    (hL : st.inLineComment = false) (hB : st.inBlockComment = false)
    (hp : st.prev = slashC) :
    step st starC =
      { st with inBlockComment := true, current := st.current.dropLast, prev := starC } := by
  unfold step
  rw [if_neg (fun h => by exact absurd h.2.2.2.1 (by decide))]
  rw [if_neg (fun h => by rw [hL] at h; exact Bool.false_ne_true h.1)]
  rw [if_neg (fun h => by rw [hL] at h; exact Bool.false_ne_true h)]
  rw [if_pos ⟨hS, hD, hB, rfl, hp⟩]

lemma step_inBlock_skip (st : ParseState) (c : Char)
    (hL : st.inLineComment = false) (hB : st.inBlockComment = true)
    (hno : ¬(c = slashC ∧ st.prev = starC)) :
    step st c = { st with prev := c } := by
  unfold step
  rw [if_neg (fun h => by rw [hB] at h; simp at h)]
  rw [if_neg (fun h => by rw [hL] at h; exact Bool.false_ne_true h.1)]
  rw [if_neg (fun h => by rw [hL] at h; exact Bool.false_ne_true h)]
  rw [if_neg (fun h => by rw [hB] at h; simp at h)]
  rw [if_neg (fun h => hno ⟨h.2.1, h.2.2⟩)]
  rw [if_pos hB]

lemma step_endBlock (st : ParseState)
    (hL : st.inLineComment = false) (hB : st.inBlockComment = true)
    (hp : st.prev = starC) :
    step st slashC =
      { st with inBlockComment := false, current := st.current ++ [spaceC], prev := slashC } := by
  unfold step
  rw [if_neg (fun h => by exact absurd h.2.2.2.1 (by decide))]
  rw [if_neg (fun h => by rw [hL] at h; exact Bool.false_ne_true h.1)]
  rw [if_neg (fun h => by rw [hL] at h; exact Bool.false_ne_true h)]
  rw [if_neg (fun h => by rw [hB] at h; simp at h)]
  rw [if_pos ⟨hB, rfl, hp⟩]

lemma scan_inLine (b : Str) (hb : nlC ∉ b) :
    ∀ st : ParseState, LineSt st → LineSt (b.foldl step st) := by
  induction b with
  | nil => intro st h; exact h
  | cons c bs ih =>
    intro st hst
    obtain ⟨hS, hD, hL, hB, hcur, hstm⟩ := hst
    have hnl : c ≠ nlC := fun h => hb (h ▸ List.mem_cons_self _ _)
    have hbtail : nlC ∉ bs := fun h => hb (List.mem_cons_of_mem _ h)
    rw [List.foldl_cons]
    apply ih hbtail
    by_cases hdd : c = dashC ∧ st.prev = dashC
    · obtain ⟨hc, hp⟩ := hdd
      subst hc
      rw [step_dashdash st hS hD hB hp]
      exact ⟨hS, hD, rfl, hB, allWs_dropLast hcur, hstm⟩
    · rw [step_inLine_skip st c hL hdd hnl]
      exact ⟨hS, hD, hL, hB, hcur, hstm⟩

lemma scan_inBlock (b : Str) :
    ∀ st : ParseState, BlockSt st →
      List.Chain' (fun a c => ¬(a = starC ∧ c = slashC)) (st.prev :: b) →
      BlockSt (b.foldl step st) ∧
        (b.foldl step st).current = st.current := by
  induction b with
  | nil => intro st h _; exact ⟨h, rfl⟩
  | cons c bs ih =>
    intro st hst hchain
    obtain ⟨hS, hD, hL, hB, hcur, hstm⟩ := hst
    rw [List.chain'_cons] at hchain
    have hno : ¬(c = slashC ∧ st.prev = starC) := fun h => hchain.1 ⟨h.2, h.1⟩
    rw [List.foldl_cons, step_inBlock_skip st c hL hB hno]
    exact ih { st with prev := c } ⟨hS, hD, hL, hB, hcur, hstm⟩ hchain.2

/-- The central invariance argument of C9: folding the character loop over a
comment-and-whitespace-only script from a clean state emits no statement and
leaves a whitespace-only accumulator. -/
lemma commentScript_foldl {s : Str} (hs : CommentScript s) :
    ∀ st : ParseState, GoodSt st →
      (s.foldl step st).stmts = [] ∧ AllWs (s.foldl step st).current := by
  induction hs with
  | nil =>
    intro st h
    exact ⟨h.2.2.2.2.2.1, h.2.2.2.2.1⟩
  | ws hc _ ih =>
    rename_i c srest _
    intro st hst
    obtain ⟨hS, hD, hL, hB, hcur, hstm, hprev⟩ := hst
    have hfacts : c ≠ dashC ∧ c ≠ starC ∧ c ≠ squote ∧ c ≠ dquote ∧ c ≠ semiC ∧ c ∈ wsChars := by
      simp [wsChars, spaceC, nlC] at hc
      rcases hc with rfl | rfl | rfl | rfl <;> refine ⟨by decide, by decide, by decide, by decide, by decide, by decide⟩
    rw [List.foldl_cons]
    rw [step_plain st c hS hD hL hB (fun h => hfacts.1 h.1) (fun h => hfacts.2.1 h.1)
      hfacts.2.2.1 hfacts.2.2.2.1 hfacts.2.2.2.2.1]
    exact ih _ ⟨hS, hD, hL, hB, allWs_append_ws hcur hfacts.2.2.2.2.2, hstm,
      fun h => hfacts.1 h⟩
  | line hbnl _ ih =>
    rename_i b srest _
    intro st hst
    obtain ⟨hS, hD, hL, hB, hcur, hstm, hprev⟩ := hst
    rw [List.foldl_cons, List.foldl_cons]
    rw [step_plain st dashC hS hD hL hB (fun h => hprev h.2) (fun h => by exact absurd h.1 (by decide))
      (by decide) (by decide) (by decide)]
    rw [step_dashdash { st with current := st.current ++ [dashC], prev := dashC } hS hD hB rfl]
    have hline := scan_inLine b hbnl
      { st with
          inLineComment := true,
          current := (st.current ++ [dashC]).dropLast, prev := dashC }
      ⟨hS, hD, rfl, hB, by rw [List.dropLast_concat]; exact hcur, hstm⟩
    rw [List.foldl_append]
    set st3 := b.foldl step { st with
        inLineComment := true,
        current := (st.current ++ [dashC]).dropLast, prev := dashC } with hst3
    obtain ⟨h3S, h3D, h3L, h3B, h3cur, h3stm⟩ := hline
    rw [List.foldl_cons, step_inLine_nl st3 h3L]
    exact ih _ ⟨h3S, h3D, rfl, h3B, allWs_append_ws h3cur (by simp [wsChars]), h3stm,
      show nlC ≠ dashC by decide⟩
  | lineEnd hbnl =>
    rename_i b
    intro st hst
    obtain ⟨hS, hD, hL, hB, hcur, hstm, hprev⟩ := hst
    rw [List.foldl_cons, List.foldl_cons]
    rw [step_plain st dashC hS hD hL hB (fun h => hprev h.2) (fun h => by exact absurd h.1 (by decide))
      (by decide) (by decide) (by decide)]
    rw [step_dashdash { st with current := st.current ++ [dashC], prev := dashC } hS hD hB rfl]
    have hline := scan_inLine b hbnl
      { st with
          inLineComment := true,
          current := (st.current ++ [dashC]).dropLast, prev := dashC }
      ⟨hS, hD, rfl, hB, by rw [List.dropLast_concat]; exact hcur, hstm⟩
    exact ⟨hline.2.2.2.2.2, hline.2.2.2.2.1⟩
  | block hchain _ ih =>
    rename_i b srest _
    intro st hst
    obtain ⟨hS, hD, hL, hB, hcur, hstm, hprev⟩ := hst
    rw [List.foldl_cons, List.foldl_cons]
    rw [step_plain st slashC hS hD hL hB (fun h => by exact absurd h.1 (by decide))
      (fun h => by exact absurd h.1 (by decide)) (by decide) (by decide) (by decide)]
    rw [step_startBlock { st with current := st.current ++ [slashC], prev := slashC } hS hD hL hB rfl]
    have hblock := scan_inBlock b
      { st with
          inBlockComment := true,
          current := (st.current ++ [slashC]).dropLast, prev := starC }
      ⟨hS, hD, hL, rfl, by rw [List.dropLast_concat]; exact hcur, hstm⟩
      (by exact hchain)
    rw [List.foldl_append]
    set st3 := b.foldl step { st with
        inBlockComment := true,
        current := (st.current ++ [slashC]).dropLast, prev := starC } with hst3
    obtain ⟨⟨h3S, h3D, h3L, h3B, h3cur, h3stm⟩, _⟩ := hblock
    rw [List.foldl_cons, List.foldl_cons]
    rw [step_inBlock_skip st3 starC h3L h3B (fun h => by exact absurd h.1 (by decide))]
    rw [step_endBlock { st3 with prev := starC } h3L h3B rfl]
    exact ih _ ⟨h3S, h3D, h3L, rfl, allWs_append_ws h3cur (by simp [wsChars]), h3stm,
      show slashC ≠ dashC by decide⟩

/-- C9.  A script consisting only of line comments, block comments and
whitespace parses to the empty statement sequence: no statement is emitted
for whitespace-only segments, including at end of input. -/
theorem c9_comment_scripts_parse_empty (s : Str) (hs : CommentScript s) :
    parseSQLStatements s = [] := by
  have hinit : GoodSt initState :=
    ⟨rfl, rfl, rfl, rfl, by intro c hc; simp [initState] at hc, rfl, by decide⟩
  obtain ⟨h1, h2⟩ := commentScript_foldl hs initState hinit
  unfold parseSQLStatements emitIfNonEmpty
  rw [trimSpace_allWs h2, h1]
  simp

/-- A concrete comment-and-whitespace-only script: space, a line comment, a
block comment, trailing space. -/
def c9script : Str :=
  spaceC :: dashC :: dashC :: ([spaceC, 'a'] ++ nlC ::
    slashC :: starC :: (['b'] ++ starC :: slashC :: [spaceC]))

/-- C9 witness: the theorem applied to the concrete comment-only script. -/
theorem c9_comment_scripts_parse_empty_witness :
    CommentScript c9script ∧ parseSQLStatements c9script = [] :=
  have hd : CommentScript c9script :=
    CommentScript.ws (by decide)
      (CommentScript.line (by decide)
        (CommentScript.block
          (by rw [List.chain'_cons]; exact ⟨by decide, List.chain'_singleton _⟩)
          (CommentScript.ws (by decide) CommentScript.nil)))
  ⟨hd, c9_comment_scripts_parse_empty c9script hd⟩

end CaddyHtmlDuckDB
